import Mathlib

/-!
Shallow embedding of the `vg` renderer (src/vg.hpp, src/vg.cpp) and proofs
about its selection logic, its setup-time structural invariants, and the
per-frame `draw()` protocol.

Machine integers (`std::uint32_t`) are modelled as `Nat`, with an explicit
`% 2 ^ 32` at the one arithmetic operation where overflow can occur
(`chooseImageCount`'s `minImageCount + 1`).  Vectors of opaque GPU handles
(semaphores, fences) are modelled by their lengths; a fence handle stored in
the `image_inflight` table is identified by the frame-slot index it was
created for (the fences of distinct slots are distinct objects, so handle
equality coincides with slot-index equality).  Out-of-bounds
`std::vector::operator[]` accesses (undefined behaviour in the source) and
thrown exceptions are both modelled by `Option.none`.
-/

namespace vg

/-! ## Data model (vg.hpp and the Vulkan structs the code reads) -/

/-- `vk::Extent2D`: a pair of `uint32_t` dimensions. -/
structure Extent2D where
  width : Nat
  height : Nat
deriving DecidableEq, Repr

/-- The subset of `vk::SurfaceCapabilitiesKHR` that vg.cpp reads
(`minImageCount`, `maxImageCount`, `currentExtent`, `minImageExtent`,
`maxImageExtent`; `currentTransform` is only forwarded verbatim into
swapchain creation and is omitted). All fields are `uint32_t`-valued. -/
structure SurfaceCapabilitiesKHR where
  minImageCount : Nat
  maxImageCount : Nat
  currentExtent : Extent2D
  minImageExtent : Extent2D
  maxImageExtent : Extent2D
deriving DecidableEq, Repr

/-- `vk::PresentModeKHR` (the enumerators relevant to the surface). -/
inductive PresentModeKHR where
  | eImmediate
  | eMailbox
  | eFifo
  | eFifoRelaxed
  | eSharedDemandRefresh
  | eSharedContinuousRefresh
deriving DecidableEq, Repr

/-- `vk::Format`, reduced to the case the code tests for plus an opaque rest. -/
inductive Format where
  | eB8G8R8A8Srgb
  | otherFormat (code : Nat)
deriving DecidableEq, Repr

/-- `vk::ColorSpaceKHR`, reduced likewise. -/
inductive ColorSpaceKHR where
  | eVkColorspaceSrgbNonlinear
  | otherSpace (code : Nat)
deriving DecidableEq, Repr

/-- `vk::SurfaceFormatKHR`. -/
structure SurfaceFormatKHR where
  format : Format
  colorSpace : ColorSpaceKHR
deriving DecidableEq, Repr

/-- `vg::SurfaceDetails` (vg.hpp): formats, present modes and capabilities
reported by one physical device for the fixed window surface. -/
structure SurfaceDetails where
  formats : List SurfaceFormatKHR
  present_modes : List PresentModeKHR
  caps : SurfaceCapabilitiesKHR
deriving DecidableEq, Repr

/-- `vk::PhysicalDeviceType` (the enumerators of the Vulkan enum). -/
inductive PhysicalDeviceType where
  | eOther
  | eIntegratedGpu
  | eDiscreteGpu
  | eVirtualGpu
  | eCpu
deriving DecidableEq, Repr

/-- One entry of `dev.getQueueFamilyProperties()` together with the per-family
surface-support query: `graphics` is `queueFlags & vk::QueueFlagBits::eGraphics`,
`present` is `dev.getSurfaceSupportKHR(i, surf)` for this family's index `i`
(the surface is fixed for the whole session, so the query is a per-family
attribute here). -/
structure QueueFamilyProperties where
  graphics : Bool
  present : Bool
deriving DecidableEq, Repr

/-- A `vk::PhysicalDevice` as observed by `chooseRenderGroup`: its device
type, its queue families, and the `SurfaceDetails` that
`getSurfaceDetails(dev)` returns for it. -/
structure PhysicalDevice where
  deviceType : PhysicalDeviceType
  qfams : List QueueFamilyProperties
  surf_details : SurfaceDetails
deriving DecidableEq, Repr

/-- `vg::RenderGroup` (vg.hpp): chosen device, queue family index, details. -/
structure RenderGroup where
  dev : PhysicalDevice
  qfam_idx : Nat
  surf_details : SurfaceDetails
deriving DecidableEq, Repr

/-- `UINT32_MAX`, the sentinel tested by `chooseSwapExtent`. -/
def UINT32_MAX : Nat := 4294967295

/-! ## Swapchain parameter selection (vg.cpp lines 223-254) -/

/-- `Renderer::chooseImageCount` (vg.cpp:223-228):
`img_count = caps.minImageCount + 1` in `uint32_t` arithmetic (hence the
`% 2 ^ 32`), clamped down to `caps.maxImageCount` when that is nonzero and
exceeded. -/
def chooseImageCount (caps : SurfaceCapabilitiesKHR) : Nat :=
  let img_count := (caps.minImageCount + 1) % 4294967296
  if caps.maxImageCount ≠ 0 ∧ img_count > caps.maxImageCount then
    caps.maxImageCount
  else
    img_count

/-- `std::clamp(v, lo, hi)`: `lo` if `v < lo`, else `hi` if `hi < v`, else `v`. -/
def clampU (v lo hi : Nat) : Nat :=
  if v < lo then lo else if hi < v then hi else v

/-- `Renderer::chooseSwapExtent` (vg.cpp:230-243).  The code compares only
`caps.currentExtent.width` with `UINT32_MAX`; when it differs the reported
extent is taken verbatim, otherwise the live framebuffer size (from
`glfwGetFramebufferSize`, a non-negative `int` per component, passed here as
`fbWidth`/`fbHeight`) is clamped componentwise into
`[minImageExtent, maxImageExtent]`. -/
def chooseSwapExtent (caps : SurfaceCapabilitiesKHR) (fbWidth fbHeight : Nat) :
    Extent2D :=
  if caps.currentExtent.width ≠ UINT32_MAX then
    caps.currentExtent
  else
    { width := clampU fbWidth caps.minImageExtent.width caps.maxImageExtent.width,
      height := clampU fbHeight caps.minImageExtent.height caps.maxImageExtent.height }

/-- The loop body of `Renderer::choosePresentMode` (vg.cpp:245-254): `ret`
starts as `eFifo`; a `eMailbox` entry returns immediately, an `eImmediate`
entry overwrites `ret`, everything else is skipped. -/
def choosePresentModeGo : List PresentModeKHR → PresentModeKHR → PresentModeKHR
  | [], ret => ret
  | present_mode :: rest, ret =>
    if present_mode = PresentModeKHR.eMailbox then PresentModeKHR.eMailbox
    else if present_mode = PresentModeKHR.eImmediate then
      choosePresentModeGo rest present_mode
    else choosePresentModeGo rest ret

/-- `Renderer::choosePresentMode` (vg.cpp:245-254). -/
def choosePresentMode (present_modes : List PresentModeKHR) : PresentModeKHR :=
  choosePresentModeGo present_modes PresentModeKHR.eFifo

/-! ## Device selection (`Renderer::chooseRenderGroup`, vg.cpp:170-192) -/

/-- The inner queue-family loop of `chooseRenderGroup` for one device `d`,
with `i` the index of the first family in `qfams` and `valid_groups` the
accumulator built so far.  At a family with graphics capability and surface
support the code assigns `rend_group = {dev, i, surf_details}`, returns it at
once if the device is a discrete GPU (`Sum.inl`), and otherwise pushes it
onto `valid_groups` and keeps scanning. -/
def scanQFams (d : PhysicalDevice) (i : Nat)
    (qfams : List QueueFamilyProperties) (valid_groups : List RenderGroup) :
    RenderGroup ⊕ List RenderGroup :=
  match qfams with
  | [] => Sum.inr valid_groups
  | q :: rest =>
    if q.graphics && q.present then
      let g : RenderGroup := ⟨d, i, d.surf_details⟩
      if d.deviceType = PhysicalDeviceType.eDiscreteGpu then Sum.inl g
      else scanQFams d (i + 1) rest (valid_groups ++ [g])
    else scanQFams d (i + 1) rest valid_groups

/-- The device loop of `chooseRenderGroup`: devices with an empty format or
present-mode list are skipped; otherwise the family scan either returns a
discrete-GPU group immediately or extends `valid_groups`.  After the loop the
code throws ("no suitable device group found", modelled as `none`) when
`valid_groups` is empty and otherwise selects `valid_groups[0]`. -/
def chooseRenderGroupAux :
    List PhysicalDevice → List RenderGroup → Option RenderGroup
  | [], valid_groups => valid_groups.head?
  | d :: rest, valid_groups =>
    if d.surf_details.formats.isEmpty || d.surf_details.present_modes.isEmpty then
      chooseRenderGroupAux rest valid_groups
    else
      match scanQFams d 0 d.qfams valid_groups with
      | Sum.inl g => some g
      | Sum.inr valid_groups2 => chooseRenderGroupAux rest valid_groups2

/-- `Renderer::chooseRenderGroup` (vg.cpp:170-192) on the enumerated device
list; `none` models the `"no suitable device group found"` exception. -/
def chooseRenderGroup (devs : List PhysicalDevice) : Option RenderGroup :=
  chooseRenderGroupAux devs []

/-- Specification-side enumeration: the candidate groups contributed by the
qualifying queue families of one device, in family-index order starting at
`i`. -/
def famCandidatesFrom (d : PhysicalDevice) (i : Nat) :
    List QueueFamilyProperties → List RenderGroup
  | [] => []
  | q :: rest =>
    (if q.graphics && q.present then [(⟨d, i, d.surf_details⟩ : RenderGroup)] else [])
      ++ famCandidatesFrom d (i + 1) rest

/-- Specification-side enumeration: all valid candidates of a device list, in
enumeration order (device order, then queue-family order); a device with an
empty format or present-mode list contributes none. -/
def validCandidates : List PhysicalDevice → List RenderGroup
  | [] => []
  | d :: rest =>
    (if d.surf_details.formats.isEmpty || d.surf_details.present_modes.isEmpty
     then [] else famCandidatesFrom d 0 d.qfams)
      ++ validCandidates rest

/-- Whether a candidate's device is a discrete GPU. -/
def isDiscrete (g : RenderGroup) : Bool :=
  decide (g.dev.deviceType = PhysicalDeviceType.eDiscreteGpu)

/-! ## Shader file loading (`readFile`, vg.cpp:8-18, and the two fixed paths
read by `Renderer::createPipeline`, vg.cpp:328-329) -/

/-- The file system as seen through `std::ifstream`: each name maps to the
file's byte contents, or to `none` when the file cannot be opened. -/
def FileSys : Type := String → Option (List Nat)

/-- `readFile` (vg.cpp:8-18): open failure throws; otherwise the buffer is
sized to `tellg()` at end-of-file and filled by one `read` from offset 0, so
exactly the file's bytes are returned — nothing is appended. -/
def readFile (fs : FileSys) (file_name : String) : Option (List Nat) :=
  match fs file_name with
  | none => none
  | some contents => some contents

/-- The two shader reads at the top of `Renderer::createPipeline`
(vg.cpp:328-329); a failure of either read propagates (fatal). -/
def loadShaderCode (fs : FileSys) : Option (List Nat × List Nat) :=
  match readFile fs "shaders/shader.vert.spv",
        readFile fs "shaders/shader.frag.spv" with
  | some vert_code, some frag_code => some (vert_code, frag_code)
  | _, _ => none

/-! ## Renderer per-frame state and `draw()` (vg.cpp:41-67, 94-134, 454-466) -/

/-- One entry of `cmd_bufs`.  `framebuffer` is the framebuffer index bound by
`beginRenderPass` (none before recording); the four draw fields are the
arguments of the single `draw` call; `recorded` marks that the
`begin`/`end` pair has completed. -/
structure CommandBuffer where
  framebuffer : Option Nat
  vertexCount : Nat
  instanceCount : Nat
  firstVertex : Nat
  firstInstance : Nat
  recorded : Bool
deriving DecidableEq, Repr

/-- `dev.allocateCommandBuffers` with `commandBufferCount = n`: fresh,
unrecorded buffers. -/
def allocateCommandBuffers (n : Nat) : List CommandBuffer :=
  List.replicate n ⟨none, 0, 0, 0, 0, false⟩

/-- `Renderer::recordCommandBuffers` (vg.cpp:432-452): for every
`i < cmd_bufs.size()`, buffer `i` begins the render pass on
`framebuffers[i]` and issues `draw(3, 1, 0, 0)`. -/
def recordCommandBuffers (cmd_bufs : List CommandBuffer) : List CommandBuffer :=
  (List.range cmd_bufs.length).map fun i => ⟨some i, 3, 1, 0, 0, true⟩

/-- `Renderer::createImageViews` (vg.cpp:273-288):
`image_views.resize(images.size())`, one view per swapchain image.  Handle
vectors are modelled by their lengths. -/
def createImageViews (images : Nat) : Nat := images

/-- `Renderer::createFramebuffers` (vg.cpp:419-430):
`framebuffers.resize(image_views.size())`, one framebuffer per view. -/
def createFramebuffers (image_views : Nat) : Nat := image_views

/-- The mutable renderer state relevant to `draw()`.  Handle vectors whose
element values never matter (`image_available`, `render_finished`,
`frame_inflight` and the image/view/framebuffer vectors) are modelled by
their lengths; `image_inflight` keeps its contents: entry `j` is `some f`
when it holds the fence `frame_inflight[f]`, `none` when it holds the null
handle. -/
structure RendererState where
  frame_idx : Nat
  img_count : Nat
  images : Nat
  image_views : Nat
  framebuffers : Nat
  cmd_bufs : List CommandBuffer
  image_available : Nat
  render_finished : Nat
  frame_inflight : Nat
  image_inflight : List (Option Nat)
deriving DecidableEq, Repr

/-- The `Renderer` constructor (vg.cpp:41-67) after device and swapchain
creation: `numImages` is the size of `dev.getSwapchainImagesKHR(swapchain)`
(the actual image count chosen by the driver), `img_count` the value computed
by `chooseImageCount` and requested as `minImageCount`.  Image views and
framebuffers are sized from the image list, the command buffers from the
framebuffer list and then recorded, and `createSyncPrimitives`
(vg.cpp:454-466) sizes all four synchronization vectors to `img_count`, with
every `image_inflight` entry a default (null) `vk::Fence`. -/
def Renderer.setup (numImages img_count : Nat) : RendererState :=
  let images := numImages
  let image_views := createImageViews images
  let framebuffers := createFramebuffers image_views
  let cmd_bufs := recordCommandBuffers (allocateCommandBuffers framebuffers)
  { frame_idx := 0
    img_count := img_count
    images := images
    image_views := image_views
    framebuffers := framebuffers
    cmd_bufs := cmd_bufs
    image_available := img_count
    render_finished := img_count
    frame_inflight := img_count
    image_inflight := List.replicate img_count none }

/-- The observable trace of one successful `draw()` call: the frame slot it
ran on, the image index the presentation engine returned, whether the second
(conditional) fence wait was performed, and the `image_inflight` entry found
for the acquired image (identified by frame-slot index, `none` = null). -/
structure DrawTrace where
  slot : Nat
  acquired : Nat
  secondWait : Bool
  prevEntry : Option Nat
deriving DecidableEq, Repr

/-- `Renderer::draw` (vg.cpp:94-134) with the acquired image index supplied
by the presentation engine as the input `img_idx`.  In source order: wait on
`frame_inflight[frame_idx]`; acquire, signalling `image_available[frame_idx]`;
wait on `image_inflight[img_idx]` if and only if that entry is non-null
(the `&&` short-circuit); store `frame_inflight[frame_idx]` there; submit
`cmd_bufs[img_idx]` signalling `render_finished[frame_idx]`; present; then
`++frame_idx %= img_count`.  Every vector subscript out of bounds (undefined
behaviour in the source) yields `none`. -/
def Renderer.draw (s : RendererState) (img_idx : Nat) :
    Option (RendererState × DrawTrace) :=
  if s.frame_idx < s.frame_inflight then
    if s.frame_idx < s.image_available then
      match s.image_inflight.get? img_idx with
      | none => none
      | some entry =>
        if img_idx < s.cmd_bufs.length then
          if s.frame_idx < s.render_finished then
            some ({ s with
                      image_inflight :=
                        s.image_inflight.set img_idx (some s.frame_idx),
                      frame_idx := (s.frame_idx + 1) % s.img_count },
                  { slot := s.frame_idx
                    acquired := img_idx
                    secondWait := entry.isSome
                    prevEntry := entry })
          else none
        else none
    else none
  else none

/-- Repeated `draw()` calls as driven by `Window::run_continuous`
(vg.cpp:29-34, main.cpp): one call per element of `acquired`, the list of
image indices the presentation engine returns; any failing call aborts the
run.  Returns the final state and the per-call traces. -/
def drawSeq (s : RendererState) :
    List Nat → Option (RendererState × List DrawTrace)
  | [] => some (s, [])
  | img_idx :: rest =>
    (Renderer.draw s img_idx).bind fun p =>
      (drawSeq p.1 rest).map fun q => (q.1, p.2 :: q.2)

/-! ## Lemmas: present-mode selection -/

theorem choosePresentModeGo_of_mailbox {l : List PresentModeKHR}
    (r : PresentModeKHR) (h : PresentModeKHR.eMailbox ∈ l) :
    choosePresentModeGo l r = PresentModeKHR.eMailbox := by
  induction l generalizing r with
  | nil => cases h
  | cons m rest ih =>
    rcases List.mem_cons.mp h with h1 | h2
    · simp [choosePresentModeGo, ← h1]
    · by_cases hm : m = PresentModeKHR.eMailbox
      · simp [choosePresentModeGo, hm]
      · by_cases hi : m = PresentModeKHR.eImmediate
        · simp [choosePresentModeGo, hm, hi, ih _ h2]
        · simp [choosePresentModeGo, hm, hi, ih _ h2]

theorem choosePresentModeGo_of_neither {l : List PresentModeKHR}
    (r : PresentModeKHR) (hm : PresentModeKHR.eMailbox ∉ l)
    (hi : PresentModeKHR.eImmediate ∉ l) :
    choosePresentModeGo l r = r := by
  induction l generalizing r with
  | nil => rfl
  | cons m rest ih =>
    have hm1 : m ≠ PresentModeKHR.eMailbox := fun h => hm (h ▸ List.mem_cons_self m rest)
    have hi1 : m ≠ PresentModeKHR.eImmediate := fun h => hi (h ▸ List.mem_cons_self m rest)
    have hm2 : PresentModeKHR.eMailbox ∉ rest := fun h => hm (List.mem_cons_of_mem m h)
    have hi2 : PresentModeKHR.eImmediate ∉ rest := fun h => hi (List.mem_cons_of_mem m h)
    simp [choosePresentModeGo, hm1, hi1, ih _ hm2 hi2]

theorem choosePresentModeGo_of_immediate {l : List PresentModeKHR}
    (r : PresentModeKHR) (hm : PresentModeKHR.eMailbox ∉ l)
    (hi : PresentModeKHR.eImmediate ∈ l) :
    choosePresentModeGo l r = PresentModeKHR.eImmediate := by
  induction l generalizing r with
  | nil => cases hi
  | cons m rest ih =>
    have hm1 : m ≠ PresentModeKHR.eMailbox := fun h => hm (h ▸ List.mem_cons_self m rest)
    have hm2 : PresentModeKHR.eMailbox ∉ rest := fun h => hm (List.mem_cons_of_mem m h)
    by_cases hmi : m = PresentModeKHR.eImmediate
    · by_cases hrest : PresentModeKHR.eImmediate ∈ rest
      · simp [choosePresentModeGo, hm1, hmi, ih _ hm2 hrest]
      · simp [choosePresentModeGo, hm1, hmi,
          choosePresentModeGo_of_neither _ hm2 hrest]
    · have hrest : PresentModeKHR.eImmediate ∈ rest := by
        rcases List.mem_cons.mp hi with h1 | h2
        · exact absurd h1.symm hmi
        · exact h2
      simp [choosePresentModeGo, hm1, hmi, ih _ hm2 hrest]

/-- C3: for every list of supported present modes containing `eFifo`,
`choosePresentMode` returns `eMailbox` when `eMailbox` occurs anywhere in the
list, otherwise `eImmediate` when `eImmediate` occurs anywhere in it, and
otherwise `eFifo`; in particular the result depends only on which modes occur
in the list, not on their enumeration order. -/
theorem choosePresentMode_policy (present_modes : List PresentModeKHR)
    (hfifo : PresentModeKHR.eFifo ∈ present_modes) :
    (PresentModeKHR.eMailbox ∈ present_modes →
      choosePresentMode present_modes = PresentModeKHR.eMailbox) ∧
    (PresentModeKHR.eMailbox ∉ present_modes →
      PresentModeKHR.eImmediate ∈ present_modes →
        choosePresentMode present_modes = PresentModeKHR.eImmediate) ∧
    (PresentModeKHR.eMailbox ∉ present_modes →
      PresentModeKHR.eImmediate ∉ present_modes →
        choosePresentMode present_modes = PresentModeKHR.eFifo) ∧
    (∀ other_modes : List PresentModeKHR,
      (∀ m, m ∈ present_modes ↔ m ∈ other_modes) →
        choosePresentMode present_modes = choosePresentMode other_modes) := by
  refine ⟨fun h => choosePresentModeGo_of_mailbox _ h,
          fun hm hi => choosePresentModeGo_of_immediate _ hm hi,
          fun hm hi => choosePresentModeGo_of_neither _ hm hi,
          fun other_modes hiff => ?_⟩
  unfold choosePresentMode
  by_cases hm : PresentModeKHR.eMailbox ∈ present_modes
  · rw [choosePresentModeGo_of_mailbox _ hm,
        choosePresentModeGo_of_mailbox _ ((hiff _).mp hm)]
  · have hm2 : PresentModeKHR.eMailbox ∉ other_modes := fun h => hm ((hiff _).mpr h)
    by_cases hi : PresentModeKHR.eImmediate ∈ present_modes
    · rw [choosePresentModeGo_of_immediate _ hm hi,
          choosePresentModeGo_of_immediate _ hm2 ((hiff _).mp hi)]
    · have hi2 : PresentModeKHR.eImmediate ∉ other_modes := fun h => hi ((hiff _).mpr h)
      rw [choosePresentModeGo_of_neither _ hm hi,
          choosePresentModeGo_of_neither _ hm2 hi2]

theorem choosePresentMode_policy_witness :
    choosePresentMode
        [PresentModeKHR.eFifo, PresentModeKHR.eImmediate, PresentModeKHR.eMailbox] =
      PresentModeKHR.eMailbox :=
  (choosePresentMode_policy _ (by decide)).1 (by decide)

/-! ## Lemmas: image count -/

/-- C4 counterexample to the claim as stated: for the surface capability
snapshot with `minImageCount = 0xFFFFFFFF` (a representable `uint32_t`
value) and `maxImageCount = 0` (unbounded), the code's `uint32_t` addition
`minImageCount + 1` wraps to `0`, so `img_count` is `0` and not
`minImageCount + 1`. -/
theorem chooseImageCount_claim_cex :
    chooseImageCount ⟨4294967295, 0, ⟨500, 500⟩, ⟨1, 1⟩, ⟨4096, 4096⟩⟩ = 0 ∧
    (0 : Nat) ≠ 4294967295 + 1 := by decide

/-- C4 (amended): whenever `minImageCount + 1` does not overflow `uint32_t`,
`chooseImageCount` returns `minImageCount + 1` unclamped for
`maxImageCount = 0`, and `min (minImageCount + 1) maxImageCount` for nonzero
`maxImageCount` — in particular exactly `maxImageCount` when that is nonzero
and below `minImageCount + 1`. -/
theorem chooseImageCount_spec (caps : SurfaceCapabilitiesKHR)
    (hov : caps.minImageCount + 1 < 4294967296) :
    (caps.maxImageCount = 0 → chooseImageCount caps = caps.minImageCount + 1) ∧
    (caps.maxImageCount ≠ 0 →
      chooseImageCount caps = min (caps.minImageCount + 1) caps.maxImageCount) := by
  simp only [chooseImageCount, Nat.mod_eq_of_lt hov]
  constructor
  · intro h0; simp [h0]
  · intro hne
    split
    · next hcond => omega
    · next hcond =>
      rw [not_and_or] at hcond
      rcases hcond with hcond | hcond
      · exact absurd hne (by simpa using hcond)
      · omega

theorem chooseImageCount_spec_witness :
    chooseImageCount ⟨2, 0, ⟨500, 500⟩, ⟨1, 1⟩, ⟨4096, 4096⟩⟩ = 2 + 1 ∧
    chooseImageCount ⟨2, 2, ⟨500, 500⟩, ⟨1, 1⟩, ⟨4096, 4096⟩⟩ = min (2 + 1) 2 :=
  ⟨(chooseImageCount_spec _ (by decide)).1 rfl,
   (chooseImageCount_spec _ (by decide)).2 (by decide)⟩

/-! ## Lemmas: swap extent -/

theorem clampU_eq (v lo hi : Nat) (h : lo ≤ hi) :
    clampU v lo hi = max lo (min v hi) := by
  unfold clampU
  split_ifs <;> omega

/-- C5 counterexample to the claim as stated: for a snapshot whose
`currentExtent` is `(0xFFFFFFFF, 600)` — not the full sentinel pair
`(0xFFFFFFFF, 0xFFFFFFFF)`, so the claim requires the reported extent to be
used verbatim — the code, which compares only the width component with
`UINT32_MAX`, clamps the framebuffer size instead and returns `(800, 600)`. -/
theorem chooseSwapExtent_claim_cex :
    (SurfaceCapabilitiesKHR.mk 2 0 ⟨UINT32_MAX, 600⟩ ⟨1, 1⟩ ⟨1024, 768⟩).currentExtent ≠
      ⟨UINT32_MAX, UINT32_MAX⟩ ∧
    chooseSwapExtent ⟨2, 0, ⟨UINT32_MAX, 600⟩, ⟨1, 1⟩, ⟨1024, 768⟩⟩ 800 600 = ⟨800, 600⟩ ∧
    chooseSwapExtent ⟨2, 0, ⟨UINT32_MAX, 600⟩, ⟨1, 1⟩, ⟨1024, 768⟩⟩ 800 600 ≠
      (SurfaceCapabilitiesKHR.mk 2 0 ⟨UINT32_MAX, 600⟩ ⟨1, 1⟩ ⟨1024, 768⟩).currentExtent := by
  decide

/-- C5 (amended): `chooseSwapExtent` compares only `currentExtent.width` with
the sentinel `0xFFFFFFFF`; when the width equals the sentinel it returns the
live framebuffer size clamped componentwise into
`[minImageExtent, maxImageExtent]`, and otherwise it returns the reported
`currentExtent` verbatim. -/
theorem chooseSwapExtent_spec (caps : SurfaceCapabilitiesKHR)
    (fbWidth fbHeight : Nat)
    (hw : caps.minImageExtent.width ≤ caps.maxImageExtent.width)
    (hh : caps.minImageExtent.height ≤ caps.maxImageExtent.height) :
    (caps.currentExtent.width = UINT32_MAX →
      chooseSwapExtent caps fbWidth fbHeight =
        ⟨max caps.minImageExtent.width (min fbWidth caps.maxImageExtent.width),
         max caps.minImageExtent.height (min fbHeight caps.maxImageExtent.height)⟩) ∧
    (caps.currentExtent.width ≠ UINT32_MAX →
      chooseSwapExtent caps fbWidth fbHeight = caps.currentExtent) := by
  constructor
  · intro hs
    simp [chooseSwapExtent, hs, clampU_eq _ _ _ hw, clampU_eq _ _ _ hh]
  · intro hs
    simp [chooseSwapExtent, hs]

theorem chooseSwapExtent_spec_witness :
    chooseSwapExtent ⟨2, 0, ⟨UINT32_MAX, UINT32_MAX⟩, ⟨1, 1⟩, ⟨1024, 768⟩⟩ 800 600 =
      ⟨max 1 (min 800 1024), max 1 (min 600 768)⟩ ∧
    chooseSwapExtent ⟨2, 0, ⟨UINT32_MAX, UINT32_MAX⟩, ⟨1, 1⟩, ⟨1024, 768⟩⟩ 2000 2000 =
      ⟨max 1 (min 2000 1024), max 1 (min 2000 768)⟩ :=
  ⟨(chooseSwapExtent_spec _ 800 600 (by decide) (by decide)).1 rfl,
   (chooseSwapExtent_spec _ 2000 2000 (by decide) (by decide)).1 rfl⟩

/-! ## Lemmas: device selection -/

theorem famCandidatesFrom_dev {d : PhysicalDevice} :
    ∀ (qfams : List QueueFamilyProperties) (i : Nat) (g : RenderGroup),
      g ∈ famCandidatesFrom d i qfams → g.dev = d := by
  intro qfams
  induction qfams with
  | nil => intro i g h; cases h
  | cons q rest ih =>
    intro i g h
    unfold famCandidatesFrom at h
    rcases List.mem_append.mp h with h1 | h2
    · by_cases hq : (q.graphics && q.present) = true
      · simp only [hq, if_true, List.mem_singleton] at h1
        subst h1; rfl
      · simp [hq] at h1
    · exact ih (i + 1) g h2

theorem scanQFams_eq (d : PhysicalDevice) :
    ∀ (qfams : List QueueFamilyProperties) (i : Nat) (acc : List RenderGroup),
      scanQFams d i qfams acc =
        if d.deviceType = PhysicalDeviceType.eDiscreteGpu then
          match famCandidatesFrom d i qfams with
          | [] => Sum.inr acc
          | g :: _ => Sum.inl g
        else Sum.inr (acc ++ famCandidatesFrom d i qfams) := by
  intro qfams
  induction qfams with
  | nil =>
    intro i acc
    unfold scanQFams famCandidatesFrom
    split <;> simp
  | cons q rest ih =>
    intro i acc
    unfold scanQFams famCandidatesFrom
    by_cases hq : (q.graphics && q.present) = true
    · by_cases hd : d.deviceType = PhysicalDeviceType.eDiscreteGpu
      · simp [hq, hd]
      · simp [hq, hd, ih (i + 1) (acc ++ [(⟨d, i, d.surf_details⟩ : RenderGroup)])]
    · by_cases hd : d.deviceType = PhysicalDeviceType.eDiscreteGpu
      · simp [hq, hd, ih (i + 1) acc]
      · simp [hq, hd, ih (i + 1) acc]

theorem chooseRenderGroupAux_eq :
    ∀ (devs : List PhysicalDevice) (acc : List RenderGroup),
      chooseRenderGroupAux devs acc =
        match (validCandidates devs).find? isDiscrete with
        | some g => some g
        | none => (acc ++ validCandidates devs).head? := by
  intro devs
  induction devs with
  | nil =>
    intro acc
    simp [chooseRenderGroupAux, validCandidates]
  | cons d rest ih =>
    intro acc
    unfold chooseRenderGroupAux validCandidates
    by_cases hv : (d.surf_details.formats.isEmpty ||
        d.surf_details.present_modes.isEmpty) = true
    · simp only [hv, if_true]
      rw [ih acc]
      simp
    · simp only [hv, if_false, Bool.false_eq_true]
      rw [scanQFams_eq]
      by_cases hd : d.deviceType = PhysicalDeviceType.eDiscreteGpu
      · simp only [hd, if_true]
        cases hfc : famCandidatesFrom d 0 d.qfams with
        | nil =>
          simp [ih acc]
        | cons g gs =>
          have hg : g.dev = d :=
            famCandidatesFrom_dev d.qfams 0 g
              (hfc ▸ List.mem_cons_self g gs)
          have hdisc : isDiscrete g = true := by
            simp [isDiscrete, hg, hd]
          simp [hfc, List.find?_cons_of_pos _ hdisc]
      · simp only [hd, if_false]
        have hnone : (famCandidatesFrom d 0 d.qfams).find? isDiscrete = none := by
          rw [List.find?_eq_none]
          intro g hg
          have := famCandidatesFrom_dev d.qfams 0 g hg
          simp [isDiscrete, this, hd]
        rw [ih (acc ++ famCandidatesFrom d 0 d.qfams)]
        rw [List.find?_append, hnone]
        simp [List.append_assoc]

/-- C6: whenever some valid candidate (a device with non-empty surface-format
and present-mode lists together with a queue family supporting both graphics
and presentation) is a discrete GPU, `chooseRenderGroup` returns the first
discrete candidate in the device-then-family enumeration order — even if
non-discrete candidates were enumerated earlier — and when no discrete
candidate exists it returns the first valid candidate in enumeration order. -/
theorem chooseRenderGroup_policy (devs : List PhysicalDevice) :
    ((∃ g ∈ validCandidates devs, isDiscrete g = true) →
      ∃ g, chooseRenderGroup devs = some g ∧ isDiscrete g = true ∧
        (validCandidates devs).find? isDiscrete = some g) ∧
    ((∀ g ∈ validCandidates devs, isDiscrete g = false) →
      chooseRenderGroup devs = (validCandidates devs).head?) := by
  constructor
  · rintro ⟨g0, hg0, hd0⟩
    have hsome : ((validCandidates devs).find? isDiscrete).isSome :=
      List.find?_isSome.mpr ⟨g0, hg0, hd0⟩
    obtain ⟨g, hg⟩ := Option.isSome_iff_exists.mp hsome
    refine ⟨g, ?_, List.find?_some hg, hg⟩
    rw [chooseRenderGroup, chooseRenderGroupAux_eq, hg]
  · intro hall
    have hnone : (validCandidates devs).find? isDiscrete = none := by
      rw [List.find?_eq_none]
      intro g hg
      simp [hall g hg]
    rw [chooseRenderGroup, chooseRenderGroupAux_eq, hnone]
    simp

theorem chooseRenderGroup_policy_witness :
    (∃ g, chooseRenderGroup
        [⟨PhysicalDeviceType.eIntegratedGpu, [⟨true, true⟩],
          ⟨[⟨Format.eB8G8R8A8Srgb, ColorSpaceKHR.eVkColorspaceSrgbNonlinear⟩],
           [PresentModeKHR.eFifo], ⟨2, 0, ⟨500, 500⟩, ⟨1, 1⟩, ⟨4096, 4096⟩⟩⟩⟩,
         ⟨PhysicalDeviceType.eDiscreteGpu, [⟨true, true⟩],
          ⟨[⟨Format.eB8G8R8A8Srgb, ColorSpaceKHR.eVkColorspaceSrgbNonlinear⟩],
           [PresentModeKHR.eFifo], ⟨2, 0, ⟨500, 500⟩, ⟨1, 1⟩, ⟨4096, 4096⟩⟩⟩⟩] =
          some g ∧ isDiscrete g = true ∧
        (validCandidates
          [⟨PhysicalDeviceType.eIntegratedGpu, [⟨true, true⟩],
            ⟨[⟨Format.eB8G8R8A8Srgb, ColorSpaceKHR.eVkColorspaceSrgbNonlinear⟩],
             [PresentModeKHR.eFifo], ⟨2, 0, ⟨500, 500⟩, ⟨1, 1⟩, ⟨4096, 4096⟩⟩⟩⟩,
           ⟨PhysicalDeviceType.eDiscreteGpu, [⟨true, true⟩],
            ⟨[⟨Format.eB8G8R8A8Srgb, ColorSpaceKHR.eVkColorspaceSrgbNonlinear⟩],
             [PresentModeKHR.eFifo], ⟨2, 0, ⟨500, 500⟩, ⟨1, 1⟩, ⟨4096, 4096⟩⟩⟩⟩]).find?
          isDiscrete = some g) ∧
    chooseRenderGroup
        [⟨PhysicalDeviceType.eIntegratedGpu, [⟨true, true⟩],
          ⟨[⟨Format.eB8G8R8A8Srgb, ColorSpaceKHR.eVkColorspaceSrgbNonlinear⟩],
           [PresentModeKHR.eFifo], ⟨2, 0, ⟨500, 500⟩, ⟨1, 1⟩, ⟨4096, 4096⟩⟩⟩⟩] =
      (validCandidates
        [⟨PhysicalDeviceType.eIntegratedGpu, [⟨true, true⟩],
          ⟨[⟨Format.eB8G8R8A8Srgb, ColorSpaceKHR.eVkColorspaceSrgbNonlinear⟩],
           [PresentModeKHR.eFifo], ⟨2, 0, ⟨500, 500⟩, ⟨1, 1⟩, ⟨4096, 4096⟩⟩⟩⟩]).head? :=
  ⟨(chooseRenderGroup_policy _).1 (by decide),
   (chooseRenderGroup_policy _).2 (by decide)⟩

theorem famCandidatesFrom_eq_nil {d : PhysicalDevice} :
    ∀ (qfams : List QueueFamilyProperties) (i : Nat),
      famCandidatesFrom d i qfams = [] ↔
        ∀ q ∈ qfams, ¬(q.graphics = true ∧ q.present = true) := by
  intro qfams
  induction qfams with
  | nil => intro i; simp [famCandidatesFrom]
  | cons q rest ih =>
    intro i
    unfold famCandidatesFrom
    by_cases hq : (q.graphics && q.present) = true
    · simp only [hq, if_true]
      constructor
      · intro h; cases h
      · intro h
        exact absurd (by simpa using hq) (h q (List.mem_cons_self q rest))
    · simp only [hq, if_false, Bool.false_eq_true, List.nil_append]
      rw [ih (i + 1)]
      constructor
      · intro h q' hq'
        rcases List.mem_cons.mp hq' with h1 | h2
        · subst h1; simpa using hq
        · exact h q' h2
      · intro h q' hq'
        exact h q' (List.mem_cons_of_mem q hq')

theorem validCandidates_eq_nil (devs : List PhysicalDevice) :
    validCandidates devs = [] ↔
      ∀ d ∈ devs, d.surf_details.formats = [] ∨
        d.surf_details.present_modes = [] ∨
        ∀ q ∈ d.qfams, ¬(q.graphics = true ∧ q.present = true) := by
  induction devs with
  | nil => simp [validCandidates]
  | cons d rest ih =>
    unfold validCandidates
    rw [List.append_eq_nil, ih]
    constructor
    · rintro ⟨h1, h2⟩
      intro d' hd'
      rcases List.mem_cons.mp hd' with he | he
      · subst he
        by_cases hv : (d'.surf_details.formats.isEmpty ||
            d'.surf_details.present_modes.isEmpty) = true
        · rcases Bool.or_eq_true_iff.mp hv with hv1 | hv1
          · exact Or.inl (List.isEmpty_iff.mp hv1)
          · exact Or.inr (Or.inl (List.isEmpty_iff.mp hv1))
        · simp only [hv, if_false, Bool.false_eq_true] at h1
          exact Or.inr (Or.inr ((famCandidatesFrom_eq_nil _ 0).mp h1))
      · exact h2 d' he
    · intro h
      refine ⟨?_, fun d' hd' => h d' (List.mem_cons_of_mem d hd')⟩
      rcases h d (List.mem_cons_self d rest) with h1 | h1 | h1
      · simp [h1]
      · simp [h1]
      · split
        · rfl
        · exact (famCandidatesFrom_eq_nil _ 0).mpr h1

/-- C7: `chooseRenderGroup` fails (throws "no suitable device group found")
if and only if every enumerated adapter either reports an empty
surface-format list or an empty present-mode list, or exposes no queue
family that simultaneously supports graphics and presentation to the
surface; on failure no candidate is returned. -/
theorem chooseRenderGroup_failure (devs : List PhysicalDevice) :
    chooseRenderGroup devs = none ↔
      ∀ d ∈ devs, d.surf_details.formats = [] ∨
        d.surf_details.present_modes = [] ∨
        ∀ q ∈ d.qfams, ¬(q.graphics = true ∧ q.present = true) := by
  rw [chooseRenderGroup, chooseRenderGroupAux_eq, ← validCandidates_eq_nil]
  cases hf : (validCandidates devs).find? isDiscrete with
  | some g =>
    simp only
    constructor
    · intro h; cases h
    · intro h
      rw [h] at hf
      cases hf
  | none =>
    simp only [List.nil_append, List.head?_eq_none_iff]

/-! ## Lemmas: the draw() state machine -/

theorem draw_eq_some {s : RendererState} {img_idx : Nat} {s' : RendererState}
    {t : DrawTrace} (h : Renderer.draw s img_idx = some (s', t)) :
    s.frame_idx < s.frame_inflight ∧ s.frame_idx < s.image_available ∧
    s.frame_idx < s.render_finished ∧ img_idx < s.cmd_bufs.length ∧
    ∃ entry, s.image_inflight.get? img_idx = some entry ∧
      s' = { s with
               image_inflight := s.image_inflight.set img_idx (some s.frame_idx),
               frame_idx := (s.frame_idx + 1) % s.img_count } ∧
      t = ⟨s.frame_idx, img_idx, entry.isSome, entry⟩ := by
  unfold Renderer.draw at h
  split at h
  case isFalse => exact absurd h (by simp)
  case isTrue h1 =>
    split at h
    case isFalse => exact absurd h (by simp)
    case isTrue h2 =>
      split at h
      case h_1 => exact absurd h (by simp)
      case h_2 entry heq =>
        split at h
        case isFalse => exact absurd h (by simp)
        case isTrue h3 =>
          split at h
          case isFalse => exact absurd h (by simp)
          case isTrue h4 =>
            rw [Option.some.injEq, Prod.mk.injEq] at h
            exact ⟨h1, h2, h4, h3, entry, heq, h.1.symm, h.2.symm⟩

theorem draw_isSome_iff (s : RendererState) (img_idx : Nat) :
    (Renderer.draw s img_idx).isSome ↔
      s.frame_idx < s.frame_inflight ∧ s.frame_idx < s.image_available ∧
      img_idx < s.image_inflight.length ∧ img_idx < s.cmd_bufs.length ∧
      s.frame_idx < s.render_finished := by
  constructor
  · intro h
    obtain ⟨p, hp⟩ := Option.isSome_iff_exists.mp h
    obtain ⟨s', t⟩ := p
    obtain ⟨h1, h2, h4, h3, entry, hE, _, _⟩ := draw_eq_some hp
    rw [List.get?_eq_getElem?] at hE
    obtain ⟨hlen, _⟩ := List.getElem?_eq_some.mp hE
    exact ⟨h1, h2, hlen, h3, h4⟩
  · rintro ⟨h1, h2, hlen, h3, h4⟩
    have hE : s.image_inflight[img_idx]? = some s.image_inflight[img_idx] :=
      List.getElem?_eq_getElem hlen
    unfold Renderer.draw
    simp [h1, h2, h3, h4, hE]

theorem drawSeq_cons {s : RendererState} {i : Nat} {rest : List Nat}
    {s' : RendererState} {ts : List DrawTrace}
    (h : drawSeq s (i :: rest) = some (s', ts)) :
    ∃ s1 t ts', Renderer.draw s i = some (s1, t) ∧
      drawSeq s1 rest = some (s', ts') ∧ ts = t :: ts' := by
  simp only [drawSeq, Option.bind_eq_some, Option.map_eq_some'] at h
  obtain ⟨⟨s1, t⟩, hd, ⟨s2, ts'⟩, hs, heq⟩ := h
  simp only [Prod.mk.injEq] at heq
  exact ⟨s1, t, ts', hd, heq.1 ▸ hs, heq.2.symm⟩

theorem drawSeq_nil {s : RendererState} {s' : RendererState}
    {ts : List DrawTrace} (h : drawSeq s [] = some (s', ts)) :
    s' = s ∧ ts = [] := by
  simp only [drawSeq, Option.some.injEq, Prod.mk.injEq] at h
  exact ⟨h.1.symm, h.2.symm⟩

theorem draw_const_fields {s : RendererState} {img_idx : Nat}
    {s' : RendererState} {t : DrawTrace}
    (h : Renderer.draw s img_idx = some (s', t)) :
    s'.img_count = s.img_count ∧ s'.images = s.images ∧
    s'.image_views = s.image_views ∧ s'.framebuffers = s.framebuffers ∧
    s'.cmd_bufs = s.cmd_bufs ∧ s'.image_available = s.image_available ∧
    s'.render_finished = s.render_finished ∧
    s'.frame_inflight = s.frame_inflight ∧
    s'.image_inflight.length = s.image_inflight.length := by
  obtain ⟨_, _, _, _, entry, _, rfl, _⟩ := draw_eq_some h
  exact ⟨rfl, rfl, rfl, rfl, rfl, rfl, rfl, rfl, by simp⟩

theorem draw_frame_idx {s : RendererState} {img_idx : Nat}
    {s' : RendererState} {t : DrawTrace}
    (h : Renderer.draw s img_idx = some (s', t)) :
    s'.frame_idx = (s.frame_idx + 1) % s.img_count := by
  obtain ⟨_, _, _, _, entry, _, rfl, _⟩ := draw_eq_some h
  rfl

theorem draw_image_inflight {s : RendererState} {img_idx : Nat}
    {s' : RendererState} {t : DrawTrace}
    (h : Renderer.draw s img_idx = some (s', t)) :
    s'.image_inflight = s.image_inflight.set img_idx (some s.frame_idx) := by
  obtain ⟨_, _, _, _, entry, _, rfl, _⟩ := draw_eq_some h
  rfl

theorem draw_trace_fields {s : RendererState} {img_idx : Nat}
    {s' : RendererState} {t : DrawTrace}
    (h : Renderer.draw s img_idx = some (s', t)) :
    t.slot = s.frame_idx ∧ t.acquired = img_idx ∧
    ∃ entry, s.image_inflight.get? img_idx = some entry ∧
      t.secondWait = entry.isSome ∧ t.prevEntry = entry := by
  obtain ⟨_, _, _, _, entry, hE, _, rfl⟩ := draw_eq_some h
  exact ⟨rfl, rfl, entry, hE, rfl, rfl⟩

theorem drawSeq_props {s : RendererState} {l : List Nat} {s' : RendererState}
    {ts : List DrawTrace} (h : drawSeq s l = some (s', ts)) :
    ts.length = l.length ∧
    s'.img_count = s.img_count ∧ s'.images = s.images ∧
    s'.image_views = s.image_views ∧ s'.framebuffers = s.framebuffers ∧
    s'.cmd_bufs = s.cmd_bufs ∧ s'.image_available = s.image_available ∧
    s'.render_finished = s.render_finished ∧
    s'.frame_inflight = s.frame_inflight ∧
    s'.image_inflight.length = s.image_inflight.length := by
  induction l generalizing s ts with
  | nil =>
    obtain ⟨rfl, rfl⟩ := drawSeq_nil h
    simp
  | cons i rest ih =>
    obtain ⟨s1, t, ts', hd, hs, rfl⟩ := drawSeq_cons h
    have hp := draw_const_fields hd
    have hr := ih hs
    refine ⟨by simpa using hr.1, hr.2.1.trans hp.1, hr.2.2.1.trans hp.2.1,
      hr.2.2.2.1.trans hp.2.2.1, hr.2.2.2.2.1.trans hp.2.2.2.1,
      hr.2.2.2.2.2.1.trans hp.2.2.2.2.1, hr.2.2.2.2.2.2.1.trans hp.2.2.2.2.2.1,
      hr.2.2.2.2.2.2.2.1.trans hp.2.2.2.2.2.2.1,
      hr.2.2.2.2.2.2.2.2.1.trans hp.2.2.2.2.2.2.2.1,
      hr.2.2.2.2.2.2.2.2.2.trans hp.2.2.2.2.2.2.2.2⟩

theorem drawSeq_frame_idx {s : RendererState} {l : List Nat}
    {s' : RendererState} {ts : List DrawTrace}
    (h : drawSeq s l = some (s', ts))
    (hf : s.frame_idx % s.img_count = s.frame_idx) :
    s'.frame_idx = (s.frame_idx + l.length) % s.img_count := by
  induction l generalizing s ts with
  | nil =>
    obtain ⟨rfl, rfl⟩ := drawSeq_nil h
    rw [List.length_nil, Nat.add_zero]
    exact hf.symm
  | cons i rest ih =>
    obtain ⟨s1, t, ts', hd, hs, rfl⟩ := drawSeq_cons h
    have hp := draw_const_fields hd
    have hfi := draw_frame_idx hd
    have hf1 : s1.frame_idx % s1.img_count = s1.frame_idx := by
      rw [hfi, hp.1]
      exact Nat.mod_mod_of_dvd _ dvd_rfl
    rw [ih hs hf1, hp.1, hfi, Nat.mod_add_mod]
    congr 1
    simp [List.length_cons]
    omega

theorem drawSeq_slot {s : RendererState} {l : List Nat}
    {s' : RendererState} {ts : List DrawTrace}
    (h : drawSeq s l = some (s', ts))
    (hf : s.frame_idx % s.img_count = s.frame_idx) :
    ∀ n t, ts.get? n = some t →
      t.slot = (s.frame_idx + n) % s.img_count ∧ l.get? n = some t.acquired := by
  induction l generalizing s ts with
  | nil =>
    obtain ⟨rfl, rfl⟩ := drawSeq_nil h
    intro n t ht
    simp at ht
  | cons i rest ih =>
    obtain ⟨s1, t0, ts', hd, hs, rfl⟩ := drawSeq_cons h
    have hp := draw_const_fields hd
    have hfi := draw_frame_idx hd
    have htr := draw_trace_fields hd
    intro n t ht
    cases n with
    | zero =>
      simp only [List.get?] at ht
      obtain rfl := Option.some.inj ht
      refine ⟨?_, ?_⟩
      · rw [htr.1, Nat.add_zero]
        exact hf.symm
      · simp [htr.2.1]
    | succ n =>
      simp only [List.get?] at ht
      have hf1 : s1.frame_idx % s1.img_count = s1.frame_idx := by
        rw [hfi, hp.1]
        exact Nat.mod_mod_of_dvd _ dvd_rfl
      have := ih hs hf1 n t ht
      refine ⟨?_, by simpa using this.2⟩
      rw [this.1, hp.1, hfi, Nat.mod_add_mod]
      congr 1
      omega

theorem drawSeq_entrySome {s : RendererState} {l : List Nat}
    {s' : RendererState} {ts : List DrawTrace}
    (h : drawSeq s l = some (s', ts)) (j : Nat) :
    (∃ e, s'.image_inflight.get? j = some (some e)) ↔
      (∃ e, s.image_inflight.get? j = some (some e)) ∨ j ∈ l := by
  induction l generalizing s ts with
  | nil =>
    obtain ⟨rfl, rfl⟩ := drawSeq_nil h
    simp
  | cons i rest ih =>
    obtain ⟨s1, t, ts', hd, hs, rfl⟩ := drawSeq_cons h
    rw [ih hs]
    have hii := draw_image_inflight hd
    obtain ⟨_, _, _, _, entry, hE, _, _⟩ := draw_eq_some hd
    rw [List.get?_eq_getElem?] at hE
    obtain ⟨hlt, _⟩ := List.getElem?_eq_some.mp hE
    by_cases hj : j = i
    · subst hj
      constructor
      · intro _
        exact Or.inr (List.mem_cons_self _ _)
      · intro _
        refine Or.inl ⟨s.frame_idx, ?_⟩
        rw [hii]
        exact List.get?_set_eq_of_lt _ hlt
    · rw [hii, List.get?_set_ne _ _ (fun heq => hj heq.symm)]
      constructor
      · rintro (he | hm)
        · exact Or.inl he
        · exact Or.inr (List.mem_cons_of_mem _ hm)
      · rintro (he | hm)
        · exact Or.inl he
        · rcases List.mem_cons.mp hm with h1 | h1
          · exact absurd h1 hj
          · exact Or.inr h1

theorem drawSeq_take {s : RendererState} {l : List Nat}
    {s' : RendererState} {ts : List DrawTrace}
    (h : drawSeq s l = some (s', ts)) :
    ∀ n, ∃ sm, drawSeq s (l.take n) = some (sm, ts.take n) ∧
      drawSeq sm (l.drop n) = some (s', ts.drop n) := by
  induction l generalizing s ts with
  | nil =>
    intro n
    obtain ⟨rfl, rfl⟩ := drawSeq_nil h
    refine ⟨s', ?_, ?_⟩ <;> simp [drawSeq]
  | cons i rest ih =>
    intro n
    obtain ⟨s1, t, ts', hd, hs, rfl⟩ := drawSeq_cons h
    cases n with
    | zero =>
      refine ⟨s, by simp [drawSeq], ?_⟩
      simp only [List.drop_zero]
      simp [drawSeq, hd, hs]
    | succ n =>
      obtain ⟨sm, hA, hB⟩ := ih hs n
      refine ⟨sm, ?_, by simpa using hB⟩
      simp [List.take_succ_cons, drawSeq, hd, hA]

theorem mem_take_iff_get? {l : List Nat} {a : Nat} {n : Nat} :
    a ∈ l.take n ↔ ∃ m, m < n ∧ l.get? m = some a := by
  constructor
  · intro h
    obtain ⟨m, hm⟩ := List.mem_iff_get?.mp h
    have hmn : m < n := by
      by_contra hc
      push_neg at hc
      have hnone : (l.take n).get? m = none := by
        rw [List.get?_eq_none]
        calc (l.take n).length ≤ n := List.length_take_le n l
          _ ≤ m := hc
      rw [hnone] at hm
      cases hm
    exact ⟨m, hmn, by rw [← List.get?_take hmn]; exact hm⟩
  · rintro ⟨m, hmn, hm⟩
    exact List.mem_iff_get?.mpr ⟨m, by rw [List.get?_take hmn]; exact hm⟩

theorem drawSeq_secondWait {s : RendererState} {l : List Nat}
    {s' : RendererState} {ts : List DrawTrace}
    (h : drawSeq s l = some (s', ts)) {n : Nat} {t : DrawTrace}
    (ht : ts.get? n = some t) :
    t.secondWait = true ↔
      ((∃ e, s.image_inflight.get? t.acquired = some (some e)) ∨
       t.acquired ∈ l.take n) := by
  obtain ⟨sm, hA, hB⟩ := drawSeq_take h n
  have hlen : ts.length = l.length := (drawSeq_props h).1
  have hn : n < ts.length := by
    rw [List.get?_eq_getElem?] at ht
    exact (List.getElem?_eq_some.mp ht).1
  have hnl : n < l.length := hlen ▸ hn
  cases hld : l.drop n with
  | nil =>
    exfalso
    have := List.drop_eq_nil_iff.mp hld
    omega
  | cons i rest2 =>
    rw [hld] at hB
    obtain ⟨sm1, t', ts2, hd, hs2, hts⟩ := drawSeq_cons hB
    have ht' : t' = t := by
      have hdrop : (ts.drop n).get? 0 = ts.get? n := by
        rw [List.get?_eq_getElem?, List.get?_eq_getElem?, List.getElem?_drop,
          Nat.add_zero]
      rw [hts, ht] at hdrop
      simpa using hdrop
    subst ht'
    obtain ⟨_, hacq, entry, hE, hsw, _⟩ := draw_trace_fields hd
    rw [hsw, hacq] at *
    rw [← drawSeq_entrySome hA i]
    constructor
    · intro hE2
      obtain ⟨e, he⟩ := Option.isSome_iff_exists.mp hE2
      exact ⟨e, by rw [hE, he]⟩
    · rintro ⟨e, he⟩
      rw [hE] at he
      obtain rfl : entry = some e := by simpa using he
      rfl

theorem setup_entrySome (numImages N j : Nat) :
    ¬ ∃ e, (Renderer.setup numImages N).image_inflight.get? j = some (some e) := by
  rintro ⟨e, he⟩
  have hrep : (Renderer.setup numImages N).image_inflight = List.replicate N none :=
    rfl
  rw [hrep, List.get?_eq_getElem?, List.getElem?_replicate] at he
  split at he
  · simp at he
  · simp at he

/-! ## Claim theorems on the draw() protocol -/

/-- C1: for every `img_count = N ≥ 1` and every sequence of acquired image
indices for which the draws succeed, the `n`-th successful `draw()` call
(0-based, from construction) executes on frame slot `n % N` — regardless of
which image indices the presentation engine returned — and `frame_idx < N`
holds before every call (the slot of call `n` is `n % N < N`) and after the
whole run. -/
theorem frameSlotCycling (numImages N : Nat) (hN : 1 ≤ N) (l : List Nat)
    (s' : RendererState) (ts : List DrawTrace)
    (h : drawSeq (Renderer.setup numImages N) l = some (s', ts)) :
    ts.length = l.length ∧
    (∀ n t, ts.get? n = some t → t.slot = n % N ∧ t.slot < N) ∧
    s'.frame_idx = l.length % N ∧ s'.frame_idx < N := by
  have hcnt : (Renderer.setup numImages N).img_count = N := rfl
  have hidx : (Renderer.setup numImages N).frame_idx = 0 := rfl
  have hf : (Renderer.setup numImages N).frame_idx %
      (Renderer.setup numImages N).img_count =
      (Renderer.setup numImages N).frame_idx := by
    rw [hcnt, hidx]
    exact Nat.zero_mod N
  have hslot := drawSeq_slot h hf
  have hfr := drawSeq_frame_idx h hf
  rw [hcnt, hidx, Nat.zero_add] at hfr
  refine ⟨(drawSeq_props h).1, ?_, hfr, ?_⟩
  · intro n t ht
    have hs := (hslot n t ht).1
    rw [hcnt, hidx, Nat.zero_add] at hs
    exact ⟨hs, by rw [hs]; exact Nat.mod_lt _ hN⟩
  · rw [hfr]
    exact Nat.mod_lt _ hN

theorem frameSlotCycling_witness :
    ([(⟨0, 0, false, none⟩ : DrawTrace), ⟨1, 1, false, none⟩, ⟨2, 2, false, none⟩,
        ⟨0, 0, true, some 0⟩]).length = [0, 1, 2, 0].length ∧
    (RendererState.mk 1 3 3 3 3
        [⟨some 0, 3, 1, 0, 0, true⟩, ⟨some 1, 3, 1, 0, 0, true⟩,
         ⟨some 2, 3, 1, 0, 0, true⟩] 3 3 3
        [some 0, some 1, some 2]).frame_idx = [0, 1, 2, 0].length % 3 := by
  have hrun : drawSeq (Renderer.setup 3 3) [0, 1, 2, 0] =
      some (⟨1, 3, 3, 3, 3,
              [⟨some 0, 3, 1, 0, 0, true⟩, ⟨some 1, 3, 1, 0, 0, true⟩,
               ⟨some 2, 3, 1, 0, 0, true⟩], 3, 3, 3,
              [some 0, some 1, some 2]⟩,
            [⟨0, 0, false, none⟩, ⟨1, 1, false, none⟩, ⟨2, 2, false, none⟩,
             ⟨0, 0, true, some 0⟩]) := by decide
  have hth := frameSlotCycling 3 3 (by decide) [0, 1, 2, 0] _ _ hrun
  exact ⟨hth.1, hth.2.2.1⟩

/-- C2 counterexample to the claim as stated: in the run with
`img_count = 2` and acquired indices `0, 1, 0` (the ordinary FIFO rotation),
the third `draw()` call runs on frame slot `0` and finds
`image_inflight[0] = frame_inflight[0]` — the current slot's own fence, for
which the claim says no second wait occurs — yet the call does perform the
second fence wait, because the code only tests the entry for null. -/
theorem secondWait_claim_cex :
    (((drawSeq (Renderer.setup 2 2) [0, 1, 0]).bind fun p => p.2.get? 2).map
      fun t => (t.secondWait, decide (t.prevEntry = some t.slot))) =
      some (true, true) := by
  decide

/-- C2 (amended): after acquiring image index `i`, `draw()` performs the
second blocking fence wait if and only if `image_inflight[i]` is non-null,
which — starting from construction, where every entry is null — is the case
if and only if the same image index was acquired by some earlier successful
`draw()` call; in particular the wait also occurs when the entry holds the
current frame slot's own fence `frame_inflight[frame_idx]`. -/
theorem secondWait_iff_reacquired (numImages N : Nat) (l : List Nat)
    (s' : RendererState) (ts : List DrawTrace)
    (h : drawSeq (Renderer.setup numImages N) l = some (s', ts))
    (n : Nat) (t : DrawTrace) (ht : ts.get? n = some t) :
    t.secondWait = true ↔ ∃ m, m < n ∧ l.get? m = some t.acquired := by
  rw [drawSeq_secondWait h ht]
  have hns := setup_entrySome numImages N t.acquired
  constructor
  · rintro (he | hm)
    · exact absurd he hns
    · exact mem_take_iff_get?.mp hm
  · intro hex
    exact Or.inr (mem_take_iff_get?.mpr hex)

theorem secondWait_iff_reacquired_witness :
    (DrawTrace.mk 0 0 true (some 0)).secondWait = true ↔
      ∃ m, m < 2 ∧ [0, 1, 0].get? m =
        some (DrawTrace.mk 0 0 true (some 0)).acquired := by
  have hrun : drawSeq (Renderer.setup 2 2) [0, 1, 0] =
      some (⟨1, 2, 2, 2, 2,
              [⟨some 0, 3, 1, 0, 0, true⟩, ⟨some 1, 3, 1, 0, 0, true⟩],
              2, 2, 2, [some 0, some 1]⟩,
            [⟨0, 0, false, none⟩, ⟨1, 1, false, none⟩,
             ⟨0, 0, true, some 0⟩]) := by decide
  exact secondWait_iff_reacquired 2 2 [0, 1, 0] _ _ hrun 2
    ⟨0, 0, true, some 0⟩ (by decide)

/-- C9: after setup, the number of framebuffers equals the number of image
views equals the number of images retrieved from the swapchain, exactly one
primary command buffer is allocated per framebuffer and each is recorded once
with the render pass on its framebuffer and the fixed `draw(3, 1, 0, 0)`;
and these counts and contents are unchanged by any sequence of successful
`draw()` calls. -/
theorem structuralCounts (numImages N : Nat) (l : List Nat)
    (s' : RendererState) (ts : List DrawTrace)
    (h : drawSeq (Renderer.setup numImages N) l = some (s', ts)) :
    s'.images = numImages ∧ s'.image_views = s'.images ∧
    s'.framebuffers = s'.image_views ∧ s'.cmd_bufs.length = s'.framebuffers ∧
    (∀ n cb, s'.cmd_bufs.get? n = some cb →
      cb = ⟨some n, 3, 1, 0, 0, true⟩) := by
  have hp := drawSeq_props h
  have himg : s'.images = numImages := hp.2.2.1
  have hviews : s'.image_views = numImages := hp.2.2.2.1
  have hfbs : s'.framebuffers = numImages := hp.2.2.2.2.1
  have hcmd : s'.cmd_bufs =
      (List.range numImages).map
        fun k => (⟨some k, 3, 1, 0, 0, true⟩ : CommandBuffer) := by
    rw [hp.2.2.2.2.2.1]
    simp [Renderer.setup, recordCommandBuffers, allocateCommandBuffers,
      createFramebuffers, createImageViews]
  refine ⟨himg, hviews.trans himg.symm, hfbs.trans hviews.symm, ?_, ?_⟩
  · rw [hcmd, hfbs]
    simp
  · intro n cb hcb
    rw [hcmd] at hcb
    have hn : n < numImages := by
      by_contra hc
      push_neg at hc
      rw [List.get?_eq_none.mpr (by simpa using hc)] at hcb
      cases hcb
    rw [List.get?_map, List.get?_range hn] at hcb
    simpa using hcb.symm

theorem structuralCounts_witness :
    (RendererState.mk 1 2 2 2 2
        [⟨some 0, 3, 1, 0, 0, true⟩, ⟨some 1, 3, 1, 0, 0, true⟩]
        2 2 2 [some 0, none]).images = 2 ∧
    (RendererState.mk 1 2 2 2 2
        [⟨some 0, 3, 1, 0, 0, true⟩, ⟨some 1, 3, 1, 0, 0, true⟩]
        2 2 2 [some 0, none]).cmd_bufs.length =
      (RendererState.mk 1 2 2 2 2
        [⟨some 0, 3, 1, 0, 0, true⟩, ⟨some 1, 3, 1, 0, 0, true⟩]
        2 2 2 [some 0, none]).framebuffers := by
  have hrun : drawSeq (Renderer.setup 2 2) [0] =
      some (⟨1, 2, 2, 2, 2,
              [⟨some 0, 3, 1, 0, 0, true⟩, ⟨some 1, 3, 1, 0, 0, true⟩],
              2, 2, 2, [some 0, none]⟩,
            [⟨0, 0, false, none⟩]) := by decide
  have hth := structuralCounts 2 2 [0] _ _ hrun
  exact ⟨hth.1, hth.2.2.2.1⟩

/-- C10: the `image_inflight` table is allocated with size `img_count` (the
requested minimum image count) while the command buffers and framebuffers
are allocated with size equal to the actual number of swapchain images; in
every state reachable from setup, a `draw()` call with acquired index `i`
stays in bounds (succeeds) if and only if `i < img_count` — when the driver
creates more images than requested, an acquired index at or beyond
`img_count` makes the `image_inflight[img_idx]` access out of bounds. -/
theorem drawIndexBounds (numImages N : Nat) (hN : 1 ≤ N) (hNI : N ≤ numImages)
    (l : List Nat) (s' : RendererState) (ts : List DrawTrace)
    (h : drawSeq (Renderer.setup numImages N) l = some (s', ts)) (i : Nat) :
    s'.image_inflight.length = N ∧ s'.cmd_bufs.length = numImages ∧
    s'.framebuffers = numImages ∧
    ((Renderer.draw s' i).isSome ↔ i < N) := by
  have hp := drawSeq_props h
  have hii : s'.image_inflight.length = N := by
    rw [hp.2.2.2.2.2.2.2.2.2]
    show (List.replicate N (none : Option Nat)).length = N
    simp
  have hcmd : s'.cmd_bufs.length = numImages := by
    rw [hp.2.2.2.2.2.1]
    show (recordCommandBuffers (allocateCommandBuffers numImages)).length = numImages
    simp [recordCommandBuffers, allocateCommandBuffers]
  have hfbs : s'.framebuffers = numImages := hp.2.2.2.2.1
  have hfi : s'.frame_inflight = N := hp.2.2.2.2.2.2.2.2.1
  have hia : s'.image_available = N := hp.2.2.2.2.2.2.1
  have hrf : s'.render_finished = N := hp.2.2.2.2.2.2.2.1
  have hidx : s'.frame_idx < N := by
    have hf : (Renderer.setup numImages N).frame_idx %
        (Renderer.setup numImages N).img_count =
        (Renderer.setup numImages N).frame_idx := by
      show (0 : Nat) % N = 0
      exact Nat.zero_mod N
    rw [drawSeq_frame_idx h hf]
    exact Nat.mod_lt _ hN
  refine ⟨hii, hcmd, hfbs, ?_⟩
  rw [draw_isSome_iff]
  constructor
  · rintro ⟨_, _, h3, _, _⟩
    rwa [hii] at h3
  · intro hiN
    refine ⟨?_, ?_, ?_, ?_, ?_⟩
    · rw [hfi]; exact hidx
    · rw [hia]; exact hidx
    · rw [hii]; exact hiN
    · rw [hcmd]; omega
    · rw [hrf]; exact hidx

theorem drawIndexBounds_witness :
    (Renderer.setup 3 2).image_inflight.length = 2 ∧
    (Renderer.setup 3 2).cmd_bufs.length = 3 ∧
    (Renderer.setup 3 2).framebuffers = 3 ∧
    ((Renderer.draw (Renderer.setup 3 2) 2).isSome ↔ 2 < 2) :=
  drawIndexBounds 3 2 (by decide) (by decide) [] (Renderer.setup 3 2) [] rfl 2

/-! ## Claim theorems on shader loading -/

/-- C8 counterexample to the claim as stated: for a shader file whose size
(5 bytes) is not a multiple of 4, `readFile` returns exactly those 5 bytes —
the loader performs no zero padding, so the buffer handed to shader-module
creation does not have length a multiple of 4. -/
theorem readFile_padding_cex :
    readFile (fun file_name => if file_name = "shaders/shader.vert.spv"
        then some [3, 2, 35, 7, 0] else none) "shaders/shader.vert.spv" =
      some [3, 2, 35, 7, 0] ∧
    ([3, 2, 35, 7, 0] : List Nat).length % 4 ≠ 0 := by
  constructor
  · decide
  · decide

/-- C8 (amended): `readFile` returns exactly the file's byte contents with no
padding appended (the returned buffer is the file's contents verbatim), and
fails exactly when the file cannot be opened; `createPipeline`'s shader
loading succeeds if and only if both fixed shader paths are present, in which
case it hands shader-module creation exactly the two files' contents. -/
theorem readFile_exact (fs : FileSys) (file_name : String) :
    readFile fs file_name = fs file_name ∧
    (loadShaderCode fs = none ↔
      fs "shaders/shader.vert.spv" = none ∨
      fs "shaders/shader.frag.spv" = none) ∧
    (∀ vert_code frag_code,
      loadShaderCode fs = some (vert_code, frag_code) ↔
        fs "shaders/shader.vert.spv" = some vert_code ∧
        fs "shaders/shader.frag.spv" = some frag_code) := by
  have hrf : ∀ nm, readFile fs nm = fs nm := by
    intro nm
    unfold readFile
    cases fs nm <;> rfl
  refine ⟨hrf _, ?_, ?_⟩
  · unfold loadShaderCode
    rw [hrf, hrf]
    cases hv : fs "shaders/shader.vert.spv" <;>
      cases hf : fs "shaders/shader.frag.spv" <;> simp
  · intro vert_code frag_code
    unfold loadShaderCode
    rw [hrf, hrf]
    cases hv : fs "shaders/shader.vert.spv" <;>
      cases hf : fs "shaders/shader.frag.spv" <;> simp

end vg
